import Mathlib

/-!
Verification of the ASN-By-Country fetch-parse-extract pipeline.

This file gives a shallow embedding, in Lean 4, of the core logic of the
repository: the CIDR range decomposition of `src/network.py` (which wraps
CPython's `ipaddress.ip_address` and `ipaddress.summarize_address_range`),
the row classification and document parsing of `src/scraper.py`, the data
model of `src/models.py`, and the exit-status logic of `src/cli.py`.

Machine integers do not occur: Python integers are unbounded, so `Nat`
models them directly.  Python exceptions are modelled with explicit
`Except` results; a Python function that may raise `ValueError` or
`TypeError` becomes a Lean function into `Except PyErr _`.  Strings are
processed through their character lists so that every definition is
executable and kernel-reducible.
-/

namespace AsnByCountry

/-! ## Python string primitives

Models of the `str` methods used by the code: `strip`, `lower`, `upper`,
`split`, `isdigit`, `isalpha`.  Python's versions are Unicode-aware; the
data handled by this program (HTML cell texts, IP address literals,
country codes) is ASCII, and the models implement the ASCII behaviour. -/

/-- Characters removed by Python's `str.strip()` (ASCII whitespace). -/
def pyIsSpace (c : Char) : Bool :=
  c.toNat = 32 ∨ c.toNat = 9 ∨ c.toNat = 10 ∨ c.toNat = 13 ∨ c.toNat = 11 ∨ c.toNat = 12

def stripChars (cs : List Char) : List Char :=
  ((cs.dropWhile pyIsSpace).reverse.dropWhile pyIsSpace).reverse

/-- Models Python `str.strip()`. -/
def pyStrip (s : String) : String := String.mk (stripChars s.data)

def lowerChar (c : Char) : Char :=
  if 65 ≤ c.toNat ∧ c.toNat ≤ 90 then Char.ofNat (c.toNat + 32) else c

/-- Models Python `str.lower()`. -/
def pyLower (s : String) : String := String.mk (s.data.map lowerChar)

def upperChar (c : Char) : Char :=
  if 97 ≤ c.toNat ∧ c.toNat ≤ 122 then Char.ofNat (c.toNat - 32) else c

/-- Models Python `str.upper()`. -/
def pyUpper (s : String) : String := String.mk (s.data.map upperChar)

/-- Models Python `str.split(sep)` for a one-character separator:
splitting an empty string yields one empty piece, and adjacent
separators produce empty pieces. -/
def splitOnChar (sep : Char) : List Char → List (List Char)
  | [] => [[]]
  | c :: rest =>
    let r := splitOnChar sep rest
    if c = sep then [] :: r
    else
      match r with
      | [] => [[c]]
      | h :: t => (c :: h) :: t

/-- Value of a string of decimal digits, as computed by Python `int(s, 10)`. -/
def decValue (cs : List Char) : Nat :=
  cs.foldl (fun a c => a * 10 + (c.toNat - 48)) 0

/-- Hexadecimal digits accepted by Python `int(s, 16)` and by
`IPv6Address._parse_hextet` (its `_HEX_DIGITS` set). -/
def isHexDigitChar (c : Char) : Bool :=
  (48 ≤ c.toNat && c.toNat ≤ 57) || (97 ≤ c.toNat && c.toNat ≤ 102) ||
    (65 ≤ c.toNat && c.toNat ≤ 70)

def hexDigitVal (c : Char) : Nat :=
  if 48 ≤ c.toNat ∧ c.toNat ≤ 57 then c.toNat - 48
  else if 97 ≤ c.toNat then c.toNat - 87
  else c.toNat - 55

/-- Value of a string of hex digits, as computed by Python `int(s, 16)`. -/
def hexValue (cs : List Char) : Nat :=
  cs.foldl (fun a c => a * 16 + hexDigitVal c) 0

/-- Lower-case hexadecimal rendering without padding, Python's `'%x' % n`. -/
def natToHex (n : Nat) : String := String.mk (Nat.toDigits 16 n)

/-- The Python exceptions that the modelled code can raise.  CPython's
`AddressValueError` and `NetmaskValueError` are subclasses of
`ValueError` and are modelled as `valueError`. -/
inductive PyErr
  | valueError (msg : String)
  | typeError (msg : String)
  | zeroDivisionError
deriving DecidableEq

def pyErrMsg : PyErr → String
  | .valueError m => m
  | .typeError m => m
  | .zeroDivisionError => "division by zero"

/-! ## Bit utilities

Models of Python `int.bit_length()` and of
`ipaddress._count_righthand_zero_bits`. -/

/-- Models Python `int.bit_length()`: the number of binary digits of `n`,
with `bit_length 0 = 0`. -/
def bitLength (n : Nat) : Nat :=
  if h : n = 0 then 0 else bitLength (n / 2) + 1
termination_by n
decreasing_by exact Nat.div_lt_self (Nat.pos_of_ne_zero h) (by norm_num)

/-- Number of trailing zero bits of `n` (zero for odd or zero `n`).
CPython computes this for `number != 0` as `(~number & (number-1)).bit_length()`,
which equals the count of righthand zero bits; here it is computed by
direct recursion on the binary representation. -/
def trailingZeroBits (n : Nat) : Nat :=
  if h : n % 2 = 1 ∨ n = 0 then 0 else trailingZeroBits (n / 2) + 1
termination_by n
decreasing_by
  refine Nat.div_lt_self (Nat.pos_of_ne_zero ?_) (by norm_num)
  intro hz
  exact h (Or.inr hz)

/-- Models `ipaddress._count_righthand_zero_bits(number, bits)`:
the number of righthand zero bits in `number`, capped at `bits`
(and equal to `bits` when `number = 0`). -/
def countRighthandZeroBits (number bits : Nat) : Nat :=
  if number = 0 then bits else min bits (trailingZeroBits number)

/-! ## Range decomposition: `ipaddress.summarize_address_range`

`src/network.py` delegates the decomposition of an inclusive address
range to `ipaddress.summarize_address_range(first, last)`.  Its loop is:
while `first ≤ last`, take
`nbits = min(_count_righthand_zero_bits(first, ip_bits), (last - first + 1).bit_length() - 1)`,
yield the network `(first, ip_bits - nbits)`, and advance `first` by
`2^nbits`, with an early break once the block ends at the all-ones
address.  A block is modelled as the pair (network integer, prefix length). -/

/-- The `nbits` chosen by one iteration of `summarize_address_range`
for lower bound `f`, upper bound `l`, and address width `w`. -/
def nbitsOf (w f l : Nat) : Nat :=
  min (countRighthandZeroBits f w) (bitLength (l - f + 1) - 1)

/-- The loop of `ipaddress.summarize_address_range`, producing the list of
(network integer, prefix length) pairs for the range `[f, l]` at width `w`. -/
def summarizeLoop (w l f : Nat) : List (Nat × Nat) :=
  if h : f ≤ l then
    (f, w - nbitsOf w f l) ::
      (if f + 2 ^ nbitsOf w f l - 1 = 2 ^ w - 1 then []
       else summarizeLoop w l (f + 2 ^ nbitsOf w f l))
  else []
termination_by l + 1 - f
decreasing_by
  have hp : 0 < 2 ^ nbitsOf w f l := Nat.pos_pow_of_pos _ (by norm_num)
  omega

/-- A block list is a gapless chain of valid CIDR blocks covering exactly
`[f, l]`: each block starts where the previous range position stands, is
power-of-two sized and aligned, stays inside the range, and the chain
finishes exactly at `l + 1`. -/
def isChain (w : Nat) : Nat → Nat → List (Nat × Nat) → Prop
  | f, l, [] => f = l + 1
  | f, l, blk :: rest =>
    blk.1 = f ∧ blk.2 ≤ w ∧ 2 ^ (w - blk.2) ∣ f ∧ f + 2 ^ (w - blk.2) ≤ l + 1 ∧
      isChain w (f + 2 ^ (w - blk.2)) l rest

/-! ## IP address parsing: `ipaddress.ip_address`

`ip_address(s)` tries `IPv4Address(s)` and then `IPv6Address(s)`; any
parse failure raises `ValueError`.  The models below follow the CPython
implementations `_ip_int_from_string` / `_parse_octet` /
`_parse_hextet` / `_split_scope_id`; every rejected input maps to `none`. -/

/-- Models `IPv4Address._parse_octet`: nonempty, decimal digits only
(ASCII), at most 3 characters, no leading zero, value at most 255. -/
def parseOctet (cs : List Char) : Option Nat :=
  if cs.isEmpty then none
  else if ¬ cs.all Char.isDigit then none
  else if 3 < cs.length then none
  else if cs.headD 'x' = '0' ∧ cs ≠ ['0'] then none
  else
    let v := decValue cs
    if 255 < v then none else some v

/-- Models `IPv4Address(s)` applied to a string: rejects `'/'`, requires
exactly four octets separated by dots, combines them big-endian. -/
def pyParseIPv4Chars (cs : List Char) : Option Nat :=
  if cs.contains '/' then none
  else if cs.isEmpty then none
  else
    match splitOnChar '.' cs with
    | [s1, s2, s3, s4] =>
      match parseOctet s1, parseOctet s2, parseOctet s3, parseOctet s4 with
      | some a, some b, some c, some d => some (((a * 256 + b) * 256 + c) * 256 + d)
      | _, _, _, _ => none
    | _ => none

def pyParseIPv4 (s : String) : Option Nat := pyParseIPv4Chars s.data

/-- Models `IPv6Address._parse_hextet`: hex digits only, at most 4
characters, nonempty (`int('', 16)` raises `ValueError`). -/
def parseHextet (cs : List Char) : Option Nat :=
  if ¬ cs.all isHexDigitChar then none
  else if 4 < cs.length then none
  else if cs.isEmpty then none
  else some (hexValue cs)

/-- The hextet-accumulation loop of `IPv6Address._ip_int_from_string`:
`ip_int <<= 16; ip_int |= parse_hextet(part)` for each part.  Since the
hextet value is below `2^16`, shift-or equals multiply-add. -/
def foldParts : List (List Char) → Nat → Option Nat
  | [], acc => some acc
  | p :: rest, acc =>
    match parseHextet p with
    | none => none
    | some h => foldParts rest (acc * 65536 + h)

/-- Indices `i` with `1 ≤ i ≤ parts.length - 2` whose part is empty: the
candidate positions of a `'::'` skip, as scanned by
`IPv6Address._ip_int_from_string`. -/
def interiorEmptyIdxs (parts : List (List Char)) : List Nat :=
  (List.range parts.length).filter
    (fun i => decide (1 ≤ i) && decide (i + 1 < parts.length) && (parts.getD i ['x']).isEmpty)

/-- Models `IPv6Address._ip_int_from_string`: split on `':'`, expand an
IPv4-style last part, locate at most one `'::'`, check the part counts,
and accumulate the hextets around the skipped zero run. -/
def parseV6NoScope (s : List Char) : Option Nat :=
  if s.isEmpty then none
  else
    let parts0 := splitOnChar ':' s
    if parts0.length < 3 then none
    else
      match
        (if (parts0.getLastD []).contains '.' then
          match pyParseIPv4Chars (parts0.getLastD []) with
          | some v4 =>
            some (parts0.dropLast ++
              [(natToHex (v4 / 65536 % 65536)).data, (natToHex (v4 % 65536)).data])
          | none => none
        else some parts0)
      with
      | none => none
      | some parts =>
        if 9 < parts.length then none
        else
          match interiorEmptyIdxs parts with
          | [] =>
            if parts.length ≠ 8 then none
            else if (parts.headD ['x']).isEmpty ∨ (parts.getLastD ['x']).isEmpty then none
            else foldParts parts 0
          | [i] =>
            match
              (if (parts.headD ['x']).isEmpty then
                (if i - 1 = 0 then some 0 else none)
              else some i : Option Nat),
              (if (parts.getLastD ['x']).isEmpty then
                (if parts.length - i - 1 - 1 = 0 then some 0 else none)
              else some (parts.length - i - 1) : Option Nat)
            with
            | some hi, some lo =>
              if 8 ≤ hi + lo then none
              else
                match foldParts (parts.take hi) 0 with
                | none => none
                | some a => foldParts (parts.drop (parts.length - lo)) (a * 2 ^ (16 * (8 - (hi + lo))))
            | _, _ => none
          | _ => none

/-- Models `IPv6Address(s)` applied to a string: rejects `'/'`, splits a
`'%scope'` suffix (`_split_scope_id`: the scope must be nonempty and
contain no further `'%'`), then parses the address part. -/
def pyParseIPv6 (s : String) : Option Nat :=
  if s.data.contains '/' then none
  else
    match splitOnChar '%' s.data with
    | [addr] => parseV6NoScope addr
    | [addr, scopeId] => if scopeId.isEmpty then none else parseV6NoScope addr
    | _ => none

/-- A parsed IP address: family tag plus integer value. -/
inductive IPAddr
  | v4 (n : Nat)
  | v6 (n : Nat)
deriving DecidableEq

/-- Python `.version`. -/
def IPAddr.version : IPAddr → Nat
  | .v4 _ => 4
  | .v6 _ => 6

/-- Python `._max_prefixlen`: the address width in bits. -/
def IPAddr.width : IPAddr → Nat
  | .v4 _ => 32
  | .v6 _ => 128

/-- Python `._ip`: the address as an integer. -/
def IPAddr.intVal : IPAddr → Nat
  | .v4 n => n
  | .v6 n => n

/-- Models `ipaddress.ip_address(s)` for a string argument: first
`IPv4Address`, then `IPv6Address`; `none` models the `ValueError`
raised when neither accepts the string. -/
def pyIpAddress (s : String) : Option IPAddr :=
  match pyParseIPv4Chars s.data with
  | some n => some (.v4 n)
  | none =>
    match pyParseIPv6 s with
    | some n => some (.v6 n)
    | none => none

/-! ## Network rendering: `str(IPv4Network)` / `str(IPv6Network)` -/

/-- Dotted-quad rendering of an IPv4 integer. -/
def ipv4ToString (n : Nat) : String :=
  Nat.repr (n / 16777216 % 256) ++ "." ++ Nat.repr (n / 65536 % 256) ++ "." ++
    Nat.repr (n / 256 % 256) ++ "." ++ Nat.repr (n % 256)

/-- The eight hextet strings of an IPv6 integer, most significant first,
each rendered by `'%x'`. -/
def hextetStrs (n : Nat) : List String :=
  (List.range 8).map (fun i => natToHex (n / 2 ^ (16 * (7 - i)) % 65536))

/-- One step of the best-zero-run scan of `IPv6Address._compress_hextets`.
State: (best run start, best run length, current run start, current run
length); the input pairs an index with its hextet string. -/
def bestRunStep (st : Nat × Nat × Nat × Nat) (p : Nat × String) : Nat × Nat × Nat × Nat :=
  match st with
  | (bs, bl, cs, cl) =>
    if p.2 = "0" then
      let cs' := if cl = 0 then p.1 else cs
      let cl' := cl + 1
      if bl < cl' then (cs', cl', cs', cl') else (bs, bl, cs', cl')
    else (bs, bl, cs, 0)

/-- Models `IPv6Address._compress_hextets`: replace the first longest run
(of length at least 2) of `"0"` hextets by an empty part, padding the
ends so that joining with `':'` produces the `'::'` notation. -/
def compressHextets (hx : List String) : List String :=
  let r := hx.enum.foldl bestRunStep (0, 0, 0, 0)
  let bs := r.1
  let bl := r.2.1
  if 1 < bl then
    let hx1 := if bs + bl = hx.length then hx ++ [""] else hx
    let hx2 := hx1.take bs ++ [""] ++ hx1.drop (bs + bl)
    if bs = 0 then "" :: hx2 else hx2
  else hx

/-- Compressed rendering of an IPv6 integer. -/
def ipv6ToString (n : Nat) : String :=
  String.intercalate ":" (compressHextets (hextetStrs n))

/-- Models `str(net)` for the networks yielded by
`summarize_address_range`: address part, `'/'`, prefix length. -/
def renderNet (version : Nat) (blk : Nat × Nat) : String :=
  (if version = 4 then ipv4ToString blk.1 else ipv6ToString blk.1) ++ "/" ++ Nat.repr blk.2

/-! ## `src/network.py` -/

/-- Models `ipaddress.summarize_address_range(first, last)` up to and
including the string rendering of the yielded networks.  Mixed address
families raise `TypeError`; an inverted range raises `ValueError`. -/
def summarizeAddressRange (first last : IPAddr) : Except PyErr (List String) :=
  if first.version ≠ last.version then
    .error (.typeError "not of the same version")
  else if last.intVal < first.intVal then
    .error (.valueError "last IP address must be greater than first")
  else
    .ok ((summarizeLoop first.width last.intVal first.intVal).map (renderNet first.version))

/-- Models `ip_range_to_cidrs` of `src/network.py`: strip both inputs,
parse them with `ip_address`, and summarize the range. -/
def ipRangeToCidrs (firstIp lastIp : String) : Except PyErr (List String) :=
  match pyIpAddress (pyStrip firstIp) with
  | none => .error (.valueError "does not appear to be an IPv4 or IPv6 address")
  | some first =>
    match pyIpAddress (pyStrip lastIp) with
    | none => .error (.valueError "does not appear to be an IPv4 or IPv6 address")
    | some last => summarizeAddressRange first last

/-! ## `src/scraper.py` -/

/-- The resource type tag (`data_type` in the code). -/
inductive DataType
  | asn
  | ipv4
  | ipv6
deriving DecidableEq

def dtName : DataType → String
  | .asn => "asn"
  | .ipv4 => "ipv4"
  | .ipv6 => "ipv6"

/-- Models `DataFetcher._extract_allocation(columns, data_type)`.  The
result `Option (List String)` is Python's `list | None`; the `Except`
layer records that the `except ValueError` around `ip_range_to_cidrs`
does not catch the `TypeError` raised for a mixed-family range, which
therefore propagates out of this function. -/
def extractAllocation (columns : List String) (dataType : DataType) :
    Except PyErr (Option (List String)) :=
  if dataType = .asn ∧ 6 < columns.length ∧ columns.getD 6 "" = "Allocated" then
    .ok (some [columns.getD 3 ""])
  else if (dataType = .ipv4 ∨ dataType = .ipv6) ∧ 8 < columns.length then
    let status := pyStrip (columns.getD 8 "")
    if status ≠ "Allocated" ∧ status ≠ "Assigned" then .ok none
    else
      let pfx := pyStrip (columns.getD 5 "")
      let firstIp := pyStrip (columns.getD 3 "")
      if pyLower pfx = "aggreg" then
        match ipRangeToCidrs firstIp (pyStrip (columns.getD 4 "")) with
        | .ok cidrs => .ok (some cidrs)
        | .error (.valueError _) => .ok none
        | .error e => .error e
      else .ok (some [firstIp ++ pfx])
  else .ok none

/-- Row Classifier contract of spec section 4.2 for IPv4/IPv6 rows, as
amended: fewer than 9 columns yields no allocation; the status column
(index 8, stripped) must be "Allocated" or "Assigned"; the first-address
and prefix columns (indices 3 and 5) are stripped of surrounding
whitespace before the case-insensitive "Aggreg" comparison, before being
passed to the Range Decomposer, and before the concatenation that forms
a literal allocation. -/
def rowClassifierSpecIp (cols : List String) : Except PyErr (Option (List String)) :=
  if cols.length < 9 then .ok none
  else if ¬ (pyStrip (cols.getD 8 "") = "Allocated" ∨ pyStrip (cols.getD 8 "") = "Assigned") then
    .ok none
  else if pyLower (pyStrip (cols.getD 5 "")) = "aggreg" then
    match ipRangeToCidrs (pyStrip (cols.getD 3 "")) (pyStrip (cols.getD 4 "")) with
    | .ok cidrs => .ok (some cidrs)
    | .error (.valueError _) => .ok none
    | .error e => .error e
  else .ok (some [pyStrip (cols.getD 3 "") ++ pyStrip (cols.getD 5 "")])

/-- One parsed table row: ordered column-name/cell-value pairs
(Python builds `dict(zip(headers[1:], columns))`). -/
abbrev RowRecord := List (String × String)

/-- Abstraction of one HTML `<table>` as BeautifulSoup exposes it to
`_parse_response`: its `class` attribute string, the texts of all its
`<th>` cells, and per `<tr>` the texts of its `<td>` cells. -/
structure HtmlTable where
  classAttr : String
  ths : List String
  trs : List (List String)
deriving DecidableEq

/-- Models `soup.find("table", attrs=...)` with the class string
`"delegs <data_type> ripencc"`: the first matching table, if any. -/
def findTable (doc : List HtmlTable) (dt : DataType) : Option HtmlTable :=
  doc.find? (fun t => t.classAttr == "delegs " ++ dtName dt ++ " ripencc")

/-- Models `dict(zip(headers[1:], columns))` as an ordered pair list. -/
def mkRowRecord (headers columns : List String) : RowRecord :=
  (headers.drop 1).zip columns

/-- The row loop of `_parse_response`: strip each row's cell texts, skip
rows with no cells, retain a Row Record for every remaining row, and
extend the allocation list with whatever `_extract_allocation` returns
(`if extracted:` treats both `None` and `[]` as nothing).  An exception
escaping `_extract_allocation` propagates. -/
def processRows (headers : List String) (dt : DataType) :
    List (List String) → Except PyErr (List RowRecord × List String)
  | [] => .ok ([], [])
  | r :: rest =>
    let columns := r.map pyStrip
    if columns.isEmpty then processRows headers dt rest
    else
      match extractAllocation columns dt with
      | .error e => .error e
      | .ok extracted =>
        match processRows headers dt rest with
        | .error e => .error e
        | .ok (drs, allocs) =>
          .ok (mkRowRecord headers columns :: drs,
            (match extracted with
             | some l => if l.isEmpty then allocs else l ++ allocs
             | none => allocs))

/-- Models `DataFetcher._parse_response`: locate the table (else the
`(None, None)` outcome, here `.ok none`), strip the header texts, skip
the first two body rows, and process the rest. -/
def parseResponse (doc : List HtmlTable) (dt : DataType) :
    Except PyErr (Option (List RowRecord × List String)) :=
  match findTable doc dt with
  | none => .ok none
  | some t =>
    match processRows (t.ths.map pyStrip) dt (t.trs.drop 2) with
    | .error e => .error e
    | .ok res => .ok (some res)

/-! ## `src/models.py` and `DataFetcher.fetch` -/

/-- The `FetchResult` dataclass of `src/models.py`. -/
structure FetchResult where
  countryCode : String
  dataType : DataType
  dataRows : Option (List RowRecord) := none
  allocations : Option (List String) := none
  error : Option String := none
deriving DecidableEq

/-- The `is_success` property: `data_rows is not None and error is None`. -/
def FetchResult.isSuccess (r : FetchResult) : Bool :=
  r.dataRows.isSome && r.error.isNone

/-- Outcome of the transport layer inside `DataFetcher.fetch`:
`requests.get` + `raise_for_status` either raise a `RequestException`
(connection error, timeout, non-2xx HTTP status), raise some other
exception, or deliver a body, abstracted as the table structure the
parser would build from it. -/
inductive TransportOutcome
  | requestErr (msg : String)
  | otherExc (msg : String)
  | success (doc : List HtmlTable)

/-- Models `DataFetcher.fetch(country_code, data_type)` as a function of
the transport outcome.  The `try/except RequestException/except
Exception` ladder of the code becomes the match: every outcome is
converted to a `FetchResult`, so nothing escapes this boundary. -/
def fetchModel (country : String) (dt : DataType) (t : TransportOutcome) : FetchResult :=
  match t with
  | .requestErr m =>
    { countryCode := country, dataType := dt, error := some ("Request error: " ++ m) }
  | .otherExc m =>
    { countryCode := country, dataType := dt, error := some ("Unexpected error: " ++ m) }
  | .success doc =>
    match parseResponse doc dt with
    | .error e =>
      { countryCode := country, dataType := dt,
        error := some ("Unexpected error: " ++ pyErrMsg e) }
    | .ok none =>
      { countryCode := country, dataType := dt,
        error := some ("No data table found for " ++ pyUpper (dtName dt) ++ " in " ++ country) }
    | .ok (some (drs, allocs)) =>
      { countryCode := country, dataType := dt, dataRows := some drs,
        allocations := some allocs }

/-! ## `ScraperStats` and the CLI (`src/cli.py`) -/

/-- The `ScraperStats` dataclass; the Python `set` of processed country
codes is a `Finset`. -/
structure ScraperStats where
  totalRequests : Nat := 0
  successfulRequests : Nat := 0
  failedRequests : Nat := 0
  countriesProcessed : Finset String := ∅
deriving DecidableEq

/-- Models `ScraperStats.record_success`. -/
def recordSuccess (st : ScraperStats) (countryCode : String) : ScraperStats :=
  { st with
    totalRequests := st.totalRequests + 1,
    successfulRequests := st.successfulRequests + 1,
    countriesProcessed := insert countryCode st.countriesProcessed }

/-- Models `ScraperStats.record_failure`. -/
def recordFailure (st : ScraperStats) (countryCode : String) : ScraperStats :=
  { st with
    totalRequests := st.totalRequests + 1,
    failedRequests := st.failedRequests + 1,
    countriesProcessed := insert countryCode st.countriesProcessed }

/-- The dataclass defaults: all counters zero, no countries. -/
def initStats : ScraperStats := {}

/-- One result-handling step of `run_scraper`: a success event records a
success for its country code, a failure event records a failure. -/
def statsStep (st : ScraperStats) (e : Bool × String) : ScraperStats :=
  if e.1 then recordSuccess st e.2 else recordFailure st e.2

/-- The statistics after a sequence of success/failure events, in the
order `run_scraper` consumes completed results. -/
def applyEvents (events : List (Bool × String)) : ScraperStats :=
  events.foldl statsStep initStats

/-- The statistics `run_scraper` accumulates over its completed
`FetchResult`s: `record_success(country_code)` when `is_success`, else
`record_failure(country_code)`. -/
def statsOfRun (results : List FetchResult) : ScraperStats :=
  applyEvents (results.map (fun r => (r.isSuccess, r.countryCode)))

/-- Python division of two integers, which raises `ZeroDivisionError` on
a zero denominator; the float result is modelled by the exact rational. -/
def pyDiv (a b : Nat) : Except PyErr Rat :=
  if b = 0 then .error .zeroDivisionError else .ok ((a : Rat) / (b : Rat))

/-- Models the `ScraperStats.success_rate` property:
`0.0` when no requests, else `(successful_requests / total_requests) * 100`. -/
def pySuccessRate (st : ScraperStats) : Except PyErr Rat :=
  if st.totalRequests = 0 then .ok 0
  else
    match pyDiv st.successfulRequests st.totalRequests with
    | .error e => .error e
    | .ok q => .ok (q * 100)

/-- Models the per-code body of `validate_country_codes`: strip and
uppercase, then require exactly two alphabetic characters. -/
def validateCountryCode (code : String) : Except String String :=
  let normalized := pyUpper (pyStrip code)
  if normalized.length ≠ 2 ∨ ¬ normalized.data.all Char.isAlpha then
    .error ("Invalid country code: " ++ normalized)
  else .ok normalized

/-- Models `validate_country_codes`: validate each code in order,
raising on the first invalid one. -/
def validateCountryCodes : List String → Except String (List String)
  | [] => .ok []
  | c :: rest =>
    match validateCountryCode c with
    | .error e => .error e
    | .ok v =>
      match validateCountryCodes rest with
      | .error e => .error e
      | .ok vs => .ok (v :: vs)

/-- Outcome of `run_scraper` inside `main`: either it returns after all
submitted units completed (listed in completion order), or a
`KeyboardInterrupt` reached the surrounding handler. -/
inductive RunOutcome
  | completed (results : List FetchResult)
  | interrupted

/-- Models `main` of `src/cli.py` after argument parsing: country-code
validation failure returns 1 before any fetching; an interrupt returns
130; otherwise the exit code is 0 exactly when `failed_requests == 0`. -/
def mainModel (countries : List String) (run : RunOutcome) : Int :=
  match validateCountryCodes countries with
  | .error _ => 1
  | .ok _ =>
    match run with
    | .interrupted => 130
    | .completed results => if (statsOfRun results).failedRequests = 0 then 0 else 1

/-! ## Lemmas: bit utilities -/

theorem bitLength_eq (n : Nat) : bitLength n = if n = 0 then 0 else bitLength (n / 2) + 1 := by
  rw [bitLength]
  split <;> rfl

theorem trailingZeroBits_eq (n : Nat) :
    trailingZeroBits n = if n % 2 = 1 ∨ n = 0 then 0 else trailingZeroBits (n / 2) + 1 := by
  rw [trailingZeroBits]
  split <;> rfl

theorem lt_two_pow_bitLength (n : Nat) : n < 2 ^ bitLength n := by
  induction n using Nat.strong_induction_on with
  | _ n IH =>
    rw [bitLength_eq]
    by_cases h : n = 0
    · simp [h]
    · have hlt : n / 2 < n := Nat.div_lt_self (Nat.pos_of_ne_zero h) (by norm_num)
      have h1 := IH (n / 2) hlt
      simp only [h, if_false]
      have h2 : 2 ^ (bitLength (n / 2) + 1) = 2 * 2 ^ bitLength (n / 2) := by ring
      omega

theorem two_pow_pred_bitLength_le (n : Nat) (h : n ≠ 0) : 2 ^ (bitLength n - 1) ≤ n := by
  induction n using Nat.strong_induction_on with
  | _ n IH =>
    rw [bitLength_eq]
    simp only [h, if_false, Nat.add_sub_cancel]
    by_cases h2 : n / 2 = 0
    · simp [h2, bitLength_eq]
      omega
    · have hlt : n / 2 < n := Nat.div_lt_self (Nat.pos_of_ne_zero h) (by norm_num)
      have h1 := IH (n / 2) hlt h2
      have hp : 0 < bitLength (n / 2) := by
        rw [bitLength_eq]
        simp [h2]
      have h3 : 2 ^ bitLength (n / 2) = 2 * 2 ^ (bitLength (n / 2) - 1) := by
        conv_lhs => rw [show bitLength (n / 2) = (bitLength (n / 2) - 1) + 1 by omega]
        ring

      omega

theorem bitLength_two_pow (k : Nat) : bitLength (2 ^ k) = k + 1 := by
  induction k with
  | zero => simp [bitLength_eq]
  | succ k IH =>
    rw [bitLength_eq]
    have h1 : 2 ^ (k + 1) ≠ 0 := by positivity
    have h2 : 2 ^ (k + 1) / 2 = 2 ^ k := by
      rw [pow_succ]
      exact Nat.mul_div_cancel _ (by norm_num)
    simp [h1, h2, IH]

theorem two_pow_trailingZeroBits_dvd (n : Nat) : 2 ^ trailingZeroBits n ∣ n := by
  induction n using Nat.strong_induction_on with
  | _ n IH =>
    rw [trailingZeroBits_eq]
    by_cases h : n % 2 = 1 ∨ n = 0
    · simp [h]
    · push_neg at h
      have he : n % 2 = 0 := by omega
      have hn : n ≠ 0 := h.2
      have hlt : n / 2 < n := Nat.div_lt_self (Nat.pos_of_ne_zero hn) (by norm_num)
      have h1 := IH (n / 2) hlt
      simp only [h.1, h.2, or_self, if_false]
      have h2 : 2 ^ (trailingZeroBits (n / 2) + 1) ∣ 2 * (n / 2) := by
        rw [pow_succ, Nat.mul_comm (2 ^ trailingZeroBits (n / 2)) 2]
        exact Nat.mul_dvd_mul_left 2 h1
      have h3 : 2 * (n / 2) = n := by omega
      rwa [h3] at h2

theorem not_two_pow_succ_trailingZeroBits_dvd (n : Nat) (hn : n ≠ 0) :
    ¬ 2 ^ (trailingZeroBits n + 1) ∣ n := by
  induction n using Nat.strong_induction_on with
  | _ n IH =>
    rw [trailingZeroBits_eq]
    by_cases h : n % 2 = 1 ∨ n = 0
    · have ho : n % 2 = 1 := by
        rcases h with h | h
        · exact h
        · exact absurd h hn
      simp only [h, if_true, pow_one]
      intro hd
      omega
    · push_neg at h
      have he : n % 2 = 0 := by omega
      have hlt : n / 2 < n := Nat.div_lt_self (Nat.pos_of_ne_zero hn) (by norm_num)
      have hhalf : n / 2 ≠ 0 := by omega
      have h1 := IH (n / 2) hlt hhalf
      simp only [h.1, h.2, or_self, if_false]
      set t := trailingZeroBits (n / 2) with ht
      intro hd
      obtain ⟨c, hc⟩ := hd
      have hn2 : n = 2 * (n / 2) := by omega
      rw [hn2] at hc
      rw [pow_succ] at hc
      have h4 : 2 ^ (t + 1) * 2 * c = 2 * (2 ^ (t + 1) * c) := by ring
      rw [h4] at hc
      exact h1 ⟨c, Nat.eq_of_mul_eq_mul_left (by norm_num) hc⟩

theorem le_trailingZeroBits_of_dvd (n k : Nat) (hn : n ≠ 0) (hd : 2 ^ k ∣ n) :
    k ≤ trailingZeroBits n := by
  by_contra hlt
  push_neg at hlt
  exact not_two_pow_succ_trailingZeroBits_dvd n hn
    (dvd_trans (pow_dvd_pow 2 (by omega)) hd)

theorem countRighthandZeroBits_le (number bits : Nat) :
    countRighthandZeroBits number bits ≤ bits := by
  unfold countRighthandZeroBits
  split
  · exact le_refl _
  · exact min_le_left _ _

theorem two_pow_countRighthandZeroBits_dvd (number bits : Nat) :
    2 ^ countRighthandZeroBits number bits ∣ number := by
  unfold countRighthandZeroBits
  split
  · simp [*]
  · exact dvd_trans (pow_dvd_pow 2 (min_le_right _ _)) (two_pow_trailingZeroBits_dvd number)

theorem le_countRighthandZeroBits (number bits k : Nat) (hk : k ≤ bits)
    (hd : 2 ^ k ∣ number) : k ≤ countRighthandZeroBits number bits := by
  unfold countRighthandZeroBits
  split
  · exact hk
  · exact le_min hk (le_trailingZeroBits_of_dvd _ _ (by assumption) hd)

theorem bitLength_pos (n : Nat) (h : n ≠ 0) : 0 < bitLength n := by
  rw [bitLength_eq]
  simp only [h, if_false]
  omega

/-! ## Lemmas: the summarize loop -/

theorem nbitsOf_le_w (w f l : Nat) : nbitsOf w f l ≤ w :=
  le_trans (min_le_left _ _) (countRighthandZeroBits_le f w)

theorem two_pow_nbitsOf_le (w f l : Nat) : 2 ^ nbitsOf w f l ≤ l - f + 1 := by
  have h1 : nbitsOf w f l ≤ bitLength (l - f + 1) - 1 := min_le_right _ _
  have h2 : 2 ^ nbitsOf w f l ≤ 2 ^ (bitLength (l - f + 1) - 1) :=
    Nat.pow_le_pow_right (by norm_num) h1
  have h3 : 2 ^ (bitLength (l - f + 1) - 1) ≤ l - f + 1 :=
    two_pow_pred_bitLength_le _ (by omega)
  omega

theorem two_pow_nbitsOf_dvd (w f l : Nat) : 2 ^ nbitsOf w f l ∣ f :=
  dvd_trans (pow_dvd_pow 2 (min_le_left _ _)) (two_pow_countRighthandZeroBits_dvd f w)

theorem summarizeLoop_eq (w l f : Nat) :
    summarizeLoop w l f =
      if f ≤ l then
        (f, w - nbitsOf w f l) ::
          (if f + 2 ^ nbitsOf w f l - 1 = 2 ^ w - 1 then []
           else summarizeLoop w l (f + 2 ^ nbitsOf w f l))
      else [] := by
  rw [summarizeLoop]
  by_cases h : f ≤ l
  · rw [dif_pos h, if_pos h]
  · rw [dif_neg h, if_neg h]

theorem summarizeLoop_isChain (w : Nat) :
    ∀ m f l, l + 1 - f = m → l < 2 ^ w → f ≤ l + 1 →
      isChain w f l (summarizeLoop w l f) := by
  intro m
  induction m using Nat.strong_induction_on with
  | _ m IH =>
    intro f l hm hl hf
    rw [summarizeLoop_eq]
    by_cases h : f ≤ l
    · simp only [if_pos h]
      have hple : 2 ^ nbitsOf w f l ≤ l - f + 1 := two_pow_nbitsOf_le w f l
      have hpp : 0 < 2 ^ nbitsOf w f l := Nat.pos_pow_of_pos _ (by norm_num)
      have hnw : nbitsOf w f l ≤ w := nbitsOf_le_w w f l
      have hss : w - (w - nbitsOf w f l) = nbitsOf w f l := by omega
      refine ⟨rfl, by omega, ?_, ?_, ?_⟩
      · rw [hss]
        exact two_pow_nbitsOf_dvd w f l
      · rw [hss]
        omega
      · rw [hss]
        by_cases hbr : f + 2 ^ nbitsOf w f l - 1 = 2 ^ w - 1
        · simp only [if_pos hbr]
          have h2w : 0 < 2 ^ w := Nat.pos_pow_of_pos _ (by norm_num)
          show f + 2 ^ nbitsOf w f l = l + 1
          omega
        · simp only [if_neg hbr]
          exact IH (l + 1 - (f + 2 ^ nbitsOf w f l)) (by omega) _ l rfl hl (by omega)
    · simp only [if_neg h]
      show f = l + 1
      omega

theorem isChain_mem_bounds (w : Nat) :
    ∀ (L : List (Nat × Nat)) (f l : Nat), isChain w f l L →
      ∀ blk ∈ L, f ≤ blk.1 ∧ blk.1 + 2 ^ (w - blk.2) ≤ l + 1 ∧ blk.2 ≤ w ∧
        2 ^ (w - blk.2) ∣ blk.1 := by
  intro L
  induction L with
  | nil =>
    intro f l _ blk hblk
    cases hblk
  | cons b rest IH =>
    intro f l hch blk hblk
    obtain ⟨hb1, hb2, hb3, hb4, hrest⟩ := hch
    rcases List.mem_cons.mp hblk with heq | hmem
    · subst heq
      rw [hb1]
      exact ⟨le_refl _, hb4, hb2, hb3⟩
    · have hb := IH (f + 2 ^ (w - b.2)) l hrest blk hmem
      have hpp : 0 < 2 ^ (w - b.2) := Nat.pos_pow_of_pos _ (by norm_num)
      exact ⟨by omega, hb.2.1, hb.2.2.1, hb.2.2.2⟩

theorem isChain_coverage (w : Nat) :
    ∀ (L : List (Nat × Nat)) (f l x : Nat), isChain w f l L →
      ((∃ blk ∈ L, blk.1 ≤ x ∧ x ≤ blk.1 + (2 ^ (w - blk.2) - 1)) ↔ (f ≤ x ∧ x ≤ l)) := by
  intro L
  induction L with
  | nil =>
    intro f l x hch
    have hfl : f = l + 1 := hch
    constructor
    · rintro ⟨blk, hmem, _⟩
      exact absurd hmem (List.not_mem_nil _)
    · intro hx
      omega
  | cons b rest IH =>
    intro f l x hch
    obtain ⟨hb1, hb2, hb3, hb4, hrest⟩ := hch
    have hIH := IH (f + 2 ^ (w - b.2)) l x hrest
    have hpp : 0 < 2 ^ (w - b.2) := Nat.pos_pow_of_pos _ (by norm_num)
    constructor
    · rintro ⟨blk, hmem, hx1, hx2⟩
      rcases List.mem_cons.mp hmem with heq | hmem2
      · subst heq
        omega
      · have := hIH.mp ⟨blk, hmem2, hx1, hx2⟩
        omega
    · rintro ⟨hfx, hxl⟩
      by_cases hx : x ≤ f + (2 ^ (w - b.2) - 1)
      · exact ⟨b, List.mem_cons_self _ _, by omega, by omega⟩
      · obtain ⟨blk, hmem2, h1, h2⟩ := hIH.mpr (by omega)
        exact ⟨blk, List.mem_cons_of_mem _ hmem2, h1, h2⟩

theorem isChain_pairwise (w : Nat) :
    ∀ (L : List (Nat × Nat)) (f l : Nat), isChain w f l L →
      List.Pairwise (fun p q => p.1 + (2 ^ (w - p.2) - 1) < q.1) L := by
  intro L
  induction L with
  | nil =>
    intro f l _
    exact List.Pairwise.nil
  | cons b rest IH =>
    intro f l hch
    obtain ⟨hb1, hb2, hb3, hb4, hrest⟩ := hch
    refine List.Pairwise.cons ?_ (IH _ l hrest)
    intro q hq
    have hbd := isChain_mem_bounds w rest (f + 2 ^ (w - b.2)) l hrest q hq
    have hpp : 0 < 2 ^ (w - b.2) := Nat.pos_pow_of_pos _ (by norm_num)
    omega

theorem nbits_no_merge (w f l : Nat) (hl : l < 2 ^ w)
    (hfit2 : f + 2 ^ nbitsOf w f l + 2 ^ nbitsOf w f l ≤ l + 1) :
    ¬ 2 ^ (nbitsOf w f l + 1) ∣ f := by
  intro hal
  have hm : l - f + 1 ≠ 0 := by omega
  have hblpos : 0 < bitLength (l - f + 1) := bitLength_pos _ hm
  by_cases hAB : bitLength (l - f + 1) - 1 ≤ countRighthandZeroBits f w
  · have hnb : nbitsOf w f l = bitLength (l - f + 1) - 1 := by
      unfold nbitsOf
      exact min_eq_right hAB
    have h1 : l - f + 1 < 2 ^ bitLength (l - f + 1) := lt_two_pow_bitLength _
    have h2 : 2 ^ bitLength (l - f + 1) = 2 ^ (bitLength (l - f + 1) - 1) * 2 := by
      conv_lhs => rw [show bitLength (l - f + 1) = (bitLength (l - f + 1) - 1) + 1 by omega]
      rw [pow_succ]
    rw [hnb] at hfit2
    omega
  · push_neg at hAB
    have hnb : nbitsOf w f l = countRighthandZeroBits f w := by
      unfold nbitsOf
      exact min_eq_left (le_of_lt hAB)
    have hcw : countRighthandZeroBits f w < w := by
      by_contra hge
      push_neg at hge
      have hle := countRighthandZeroBits_le f w
      have h3 : 2 ^ (bitLength (l - f + 1) - 1) ≤ l - f + 1 := two_pow_pred_bitLength_le _ hm
      have h4 : w + 1 ≤ bitLength (l - f + 1) - 1 := by omega
      have h5 : 2 ^ (w + 1) ≤ 2 ^ (bitLength (l - f + 1) - 1) :=
        Nat.pow_le_pow_right (by norm_num) h4
      have h6 : 2 ^ (w + 1) = 2 ^ w * 2 := pow_succ 2 w
      omega
    have hf0 : f ≠ 0 := by
      intro h0
      subst h0
      simp only [countRighthandZeroBits, if_pos rfl] at hcw
      exact absurd hcw (lt_irrefl w)
    rw [hnb] at hal
    have h7 : countRighthandZeroBits f w + 1 ≤ trailingZeroBits f :=
      le_trailingZeroBits_of_dvd f _ hf0 hal
    have hcz : countRighthandZeroBits f w = min w (trailingZeroBits f) := by
      unfold countRighthandZeroBits
      simp [hf0]
    rcases le_total w (trailingZeroBits f) with hh | hh
    · rw [min_eq_left hh] at hcz
      omega
    · rw [min_eq_right hh] at hcz
      omega

theorem summarizeLoop_noMerge (w : Nat) :
    ∀ m f l, l + 1 - f = m → l < 2 ^ w →
      List.Chain' (fun p q => ¬ (q.2 = p.2 ∧ 2 ^ (w - p.2 + 1) ∣ p.1))
        (summarizeLoop w l f) := by
  intro m
  induction m using Nat.strong_induction_on with
  | _ m IH =>
    intro f l hm hl
    rw [summarizeLoop_eq]
    by_cases h : f ≤ l
    · simp only [if_pos h]
      by_cases hbr : f + 2 ^ nbitsOf w f l - 1 = 2 ^ w - 1
      · simp only [if_pos hbr]
        exact List.chain'_singleton _
      · simp only [if_neg hbr]
        have hpp : 0 < 2 ^ nbitsOf w f l := Nat.pos_pow_of_pos _ (by norm_num)
        have hple := two_pow_nbitsOf_le w f l
        have hnw := nbitsOf_le_w w f l
        have hss : w - (w - nbitsOf w f l) = nbitsOf w f l := by omega
        have hrec := IH (l + 1 - (f + 2 ^ nbitsOf w f l)) (by omega)
          (f + 2 ^ nbitsOf w f l) l rfl hl
        rw [List.chain'_cons']
        refine ⟨?_, hrec⟩
        intro q hq
        have hch : isChain w (f + 2 ^ nbitsOf w f l) l
            (summarizeLoop w l (f + 2 ^ nbitsOf w f l)) :=
          summarizeLoop_isChain w _ _ l rfl hl (by omega)
        cases htl : summarizeLoop w l (f + 2 ^ nbitsOf w f l) with
        | nil =>
          rw [htl] at hq
          cases hq
        | cons q0 rest =>
          rw [htl] at hq hch
          have hq0 : q = q0 := by
            simp only [List.head?_cons, Option.mem_def, Option.some.injEq] at hq
            exact hq.symm
          subst hq0
          obtain ⟨hq1, hq2, hq3, hq4, _⟩ := hch
          rintro ⟨hsz, hal⟩
          rw [hss] at hal
          rw [hsz, hss] at hq4
          exact nbits_no_merge w f l hl hq4 hal
    · simp only [if_neg h]
      exact List.chain'_nil

theorem summarizeLoop_aligned (w f k : Nat) (hk : k ≤ w) (hd : 2 ^ k ∣ f)
    (hlt : f + (2 ^ k - 1) < 2 ^ w) :
    summarizeLoop w (f + (2 ^ k - 1)) f = [(f, w - k)] := by
  have hpp : 0 < 2 ^ k := Nat.pos_pow_of_pos _ (by norm_num)
  have hm : f + (2 ^ k - 1) - f + 1 = 2 ^ k := by omega
  have hnb : nbitsOf w f (f + (2 ^ k - 1)) = k := by
    unfold nbitsOf
    rw [hm, bitLength_two_pow]
    simp only [Nat.add_sub_cancel]
    exact min_eq_right (le_countRighthandZeroBits f w k hk hd)
  rw [summarizeLoop_eq]
  have hle : f ≤ f + (2 ^ k - 1) := Nat.le_add_right _ _
  rw [if_pos hle, hnb]
  by_cases hbr : f + 2 ^ k - 1 = 2 ^ w - 1
  · rw [if_pos hbr]
  · rw [if_neg hbr]
    rw [summarizeLoop_eq]
    rw [if_neg (by omega)]

/-! ## Lemmas: parsed addresses fit their width -/

theorem parseOctet_le (cs : List Char) (v : Nat) (h : parseOctet cs = some v) : v ≤ 255 := by
  simp only [parseOctet] at h
  split_ifs at h with h1 h2 h3 h4 h5
  simp_all

theorem pyParseIPv4Chars_lt (cs : List Char) (n : Nat) (h : pyParseIPv4Chars cs = some n) :
    n < 2 ^ 32 := by
  simp only [pyParseIPv4Chars] at h
  split at h
  · cases h
  · split at h
    · cases h
    · split at h
      case _ s1 s2 s3 s4 hsp =>
        split at h
        case _ a b c d ha hb hc hd =>
          have h1 := parseOctet_le s1 a ha
          have h2 := parseOctet_le s2 b hb
          have h3 := parseOctet_le s3 c hc
          have h4 := parseOctet_le s4 d hd
          injection h with h
          subst h
          norm_num
          omega
        case _ => cases h
      case _ => cases h

theorem hexDigitVal_lt (c : Char) (h : isHexDigitChar c = true) : hexDigitVal c < 16 := by
  simp only [isHexDigitChar, Bool.or_eq_true, Bool.and_eq_true, decide_eq_true_eq] at h
  unfold hexDigitVal
  split_ifs <;> omega

theorem hexFold_lt (cs : List Char) :
    (∀ c ∈ cs, isHexDigitChar c = true) → ∀ a : Nat,
      List.foldl (fun x c => x * 16 + hexDigitVal c) a cs < (a + 1) * 16 ^ cs.length := by
  induction cs with
  | nil =>
    intro _ a
    simp
  | cons c t IH =>
    intro hall a
    have hc : hexDigitVal c < 16 := hexDigitVal_lt c (hall c (List.mem_cons_self _ _))
    have ht := IH (fun x hx => hall x (List.mem_cons_of_mem _ hx)) (a * 16 + hexDigitVal c)
    simp only [List.foldl_cons, List.length_cons]
    calc List.foldl (fun x c => x * 16 + hexDigitVal c) (a * 16 + hexDigitVal c) t
        < (a * 16 + hexDigitVal c + 1) * 16 ^ t.length := ht
      _ ≤ ((a + 1) * 16) * 16 ^ t.length := Nat.mul_le_mul_right _ (by omega)
      _ = (a + 1) * 16 ^ (t.length + 1) := by ring

theorem parseHextet_lt (cs : List Char) (v : Nat) (h : parseHextet cs = some v) : v < 65536 := by
  simp only [parseHextet] at h
  split_ifs at h with h1 h2 h3
  have hall : ∀ c ∈ cs, isHexDigitChar c = true := List.all_eq_true.mp h1
  have hlen : cs.length ≤ 4 := by omega
  have hb := hexFold_lt cs hall 0
  have hp : (16:ℕ) ^ cs.length ≤ 16 ^ 4 := Nat.pow_le_pow_right (by norm_num) hlen
  injection h with h
  subst h
  unfold hexValue
  norm_num at hb hp ⊢
  omega

theorem foldParts_lt (ps : List (List Char)) :
    ∀ acc n : Nat, foldParts ps acc = some n → n < (acc + 1) * 65536 ^ ps.length := by
  induction ps with
  | nil =>
    intro acc n h
    simp only [foldParts] at h
    injection h with h
    subst h
    simp
  | cons p t IH =>
    intro acc n h
    simp only [foldParts] at h
    cases hp : parseHextet p with
    | none =>
      rw [hp] at h
      cases h
    | some hv =>
      rw [hp] at h
      have h1 := IH (acc * 65536 + hv) n h
      have h2 : hv < 65536 := parseHextet_lt p hv hp
      simp only [List.length_cons]
      calc n < (acc * 65536 + hv + 1) * 65536 ^ t.length := h1
        _ ≤ ((acc + 1) * 65536) * 65536 ^ t.length := Nat.mul_le_mul_right _ (by omega)
        _ = (acc + 1) * 65536 ^ (t.length + 1) := by ring

theorem parseV6NoScope_lt (s : List Char) (n : Nat) (h : parseV6NoScope s = some n) :
    n < 2 ^ 128 := by
  have h16 : (65536:ℕ) ^ 8 = 2 ^ 128 := by norm_num
  simp only [parseV6NoScope] at h
  split at h
  · cases h
  · split at h
    · cases h
    · split at h
      · cases h
      case _ parts hparts =>
        split at h
        · cases h
        · split at h
          case _ hidx =>
            split at h
            · cases h
            case _ hlen8 =>
              split at h
              · cases h
              · have hb := foldParts_lt parts 0 n h
                have hlen : parts.length = 8 := by omega
                rw [hlen] at hb
                norm_num at hb
                omega
          case _ i hidx =>
            split at h
            case _ hi lo hhi hlo =>
              split at h
              · cases h
              case _ hskip =>
                split at h
                · cases h
                case _ a ha =>
                  have hbA := foldParts_lt (parts.take hi) 0 a ha
                  have hbN := foldParts_lt (parts.drop (parts.length - lo)) _ n h
                  have hlt : (parts.take hi).length ≤ hi := by
                    simp [List.length_take]
                  have hld : (parts.drop (parts.length - lo)).length ≤ lo := by
                    simp [List.length_drop]
                    omega
                  have h1 : a < 65536 ^ hi := by
                    have hpm : (65536:ℕ) ^ (parts.take hi).length ≤ 65536 ^ hi :=
                      Nat.pow_le_pow_right (by norm_num) hlt
                    omega
                  have hsh : (2:ℕ) ^ (16 * (8 - (hi + lo))) = 65536 ^ (8 - (hi + lo)) := by
                    rw [pow_mul]
                    norm_num
                  have hX : (1:ℕ) ≤ 65536 ^ (8 - (hi + lo)) := Nat.one_le_pow _ _ (by norm_num)
                  have h2 : a * 2 ^ (16 * (8 - (hi + lo))) + 1 ≤
                      65536 ^ (hi + (8 - (hi + lo))) := by
                    rw [hsh, pow_add]
                    calc a * 65536 ^ (8 - (hi + lo)) + 1
                        ≤ a * 65536 ^ (8 - (hi + lo)) + 65536 ^ (8 - (hi + lo)) := by omega
                      _ = (a + 1) * 65536 ^ (8 - (hi + lo)) := by ring
                      _ ≤ 65536 ^ hi * 65536 ^ (8 - (hi + lo)) :=
                          Nat.mul_le_mul_right _ (by omega)
                  have h3 : n < 65536 ^ (hi + (8 - (hi + lo))) * 65536 ^ lo := by
                    calc n < (a * 2 ^ (16 * (8 - (hi + lo))) + 1) *
                          65536 ^ (parts.drop (parts.length - lo)).length := hbN
                      _ ≤ (a * 2 ^ (16 * (8 - (hi + lo))) + 1) * 65536 ^ lo :=
                          Nat.mul_le_mul_left _ (Nat.pow_le_pow_right (by norm_num) hld)
                      _ ≤ 65536 ^ (hi + (8 - (hi + lo))) * 65536 ^ lo :=
                          Nat.mul_le_mul_right _ h2
                  have h4 : (65536:ℕ) ^ (hi + (8 - (hi + lo))) * 65536 ^ lo =
                      65536 ^ (hi + (8 - (hi + lo)) + lo) := (pow_add _ _ _).symm
                  have h5 : hi + (8 - (hi + lo)) + lo ≤ 8 := by omega
                  have h6 : (65536:ℕ) ^ (hi + (8 - (hi + lo)) + lo) ≤ 65536 ^ 8 :=
                    Nat.pow_le_pow_right (by norm_num) h5
                  omega
            case _ => cases h
          case _ => cases h

theorem pyParseIPv6_lt (s : String) (n : Nat) (h : pyParseIPv6 s = some n) : n < 2 ^ 128 := by
  simp only [pyParseIPv6] at h
  split at h
  · cases h
  · split at h
    · exact parseV6NoScope_lt _ _ h
    case _ addr scopeId =>
      split at h
      · cases h
      · exact parseV6NoScope_lt _ _ h
    case _ => cases h

theorem pyIpAddress_intVal_lt (s : String) (a : IPAddr) (h : pyIpAddress s = some a) :
    a.intVal < 2 ^ a.width := by
  simp only [pyIpAddress] at h
  cases h4 : pyParseIPv4Chars s.data with
  | some m =>
    rw [h4] at h
    injection h with h
    subst h
    exact pyParseIPv4Chars_lt _ _ h4
  | none =>
    rw [h4] at h
    cases h6 : pyParseIPv6 s with
    | some m =>
      rw [h6] at h
      injection h with h
      subst h
      exact pyParseIPv6_lt _ _ h6
    | none =>
      rw [h6] at h
      cases h

theorem width_eq_of_version_eq (a b : IPAddr) (h : a.version = b.version) :
    a.width = b.width := by
  cases a <;> cases b <;> simp_all [IPAddr.version, IPAddr.width]

theorem ipRangeToCidrs_ok (firstIp lastIp : String) (a b : IPAddr)
    (ha : pyIpAddress (pyStrip firstIp) = some a)
    (hb : pyIpAddress (pyStrip lastIp) = some b)
    (hver : a.version = b.version)
    (hle : a.intVal ≤ b.intVal) :
    ipRangeToCidrs firstIp lastIp =
      .ok ((summarizeLoop a.width b.intVal a.intVal).map (renderNet a.version)) := by
  have h1 : ipRangeToCidrs firstIp lastIp = summarizeAddressRange a b := by
    unfold ipRangeToCidrs
    rw [ha, hb]
  rw [h1]
  unfold summarizeAddressRange
  rw [if_neg (by simp [hver]), if_neg (by omega)]

/-! ## Claim C1 -/

/-- C1: for every pair of address strings that parse as IP addresses of
the same family with `first ≤ last` numerically, `ip_range_to_cidrs`
returns exactly the rendered blocks of the summarize loop, and those
blocks: (i) cover, as integer intervals, exactly the inclusive range
`[first, last]` with no gaps; (ii) are valid CIDR blocks (prefix within
the family width, network aligned to the block size); (iii) are in
ascending address order and pairwise disjoint; (iv) are minimal, in that
no two adjacent blocks can merge into one valid CIDR block of one larger
prefix aligned at that boundary; (v) a range exactly covering a
power-of-two aligned block yields exactly that one block; and (vi) a
single address yields one block at the family's maximum prefix length
(`/32` for IPv4, `/128` for IPv6, i.e. prefix equal to the width). -/
theorem c1_range_decomposer (firstIp lastIp : String) (a b : IPAddr)
    (ha : pyIpAddress (pyStrip firstIp) = some a)
    (hb : pyIpAddress (pyStrip lastIp) = some b)
    (hver : a.version = b.version)
    (hle : a.intVal ≤ b.intVal) :
    ipRangeToCidrs firstIp lastIp =
        .ok ((summarizeLoop a.width b.intVal a.intVal).map (renderNet a.version)) ∧
    (∀ x, (∃ blk ∈ summarizeLoop a.width b.intVal a.intVal,
        blk.1 ≤ x ∧ x ≤ blk.1 + (2 ^ (a.width - blk.2) - 1)) ↔
        a.intVal ≤ x ∧ x ≤ b.intVal) ∧
    (∀ blk ∈ summarizeLoop a.width b.intVal a.intVal,
        blk.2 ≤ a.width ∧ 2 ^ (a.width - blk.2) ∣ blk.1) ∧
    List.Pairwise (fun p q => p.1 + (2 ^ (a.width - p.2) - 1) < q.1)
      (summarizeLoop a.width b.intVal a.intVal) ∧
    List.Chain' (fun p q => ¬ (q.2 = p.2 ∧ 2 ^ (a.width - p.2 + 1) ∣ p.1))
      (summarizeLoop a.width b.intVal a.intVal) ∧
    (∀ k, k ≤ a.width → 2 ^ k ∣ a.intVal → b.intVal = a.intVal + (2 ^ k - 1) →
      summarizeLoop a.width b.intVal a.intVal = [(a.intVal, a.width - k)]) ∧
    (a.intVal = b.intVal →
      summarizeLoop a.width b.intVal a.intVal = [(a.intVal, a.width)]) := by
  have hwb : a.width = b.width := width_eq_of_version_eq a b hver
  have hbw : b.intVal < 2 ^ a.width := by
    rw [hwb]
    exact pyIpAddress_intVal_lt _ _ hb
  have hch : isChain a.width a.intVal b.intVal (summarizeLoop a.width b.intVal a.intVal) :=
    summarizeLoop_isChain a.width _ _ _ rfl hbw (by omega)
  refine ⟨ipRangeToCidrs_ok firstIp lastIp a b ha hb hver hle, ?_, ?_, ?_, ?_, ?_, ?_⟩
  · intro x
    exact isChain_coverage a.width _ _ _ x hch
  · intro blk hm
    have hbd := isChain_mem_bounds a.width _ _ _ hch blk hm
    exact ⟨hbd.2.2.1, hbd.2.2.2⟩
  · exact isChain_pairwise a.width _ _ _ hch
  · exact summarizeLoop_noMerge a.width _ a.intVal b.intVal rfl hbw
  · intro k hk hd hbeq
    rw [hbeq]
    refine summarizeLoop_aligned a.width a.intVal k hk hd ?_
    rw [← hbeq]
    exact hbw
  · intro heq
    have h1 : (2:ℕ) ^ 0 ∣ a.intVal := by simp
    have h2 := summarizeLoop_aligned a.width a.intVal 0 (Nat.zero_le _) h1 (by simp; omega)
    rw [← heq]
    simpa using h2

/-- Witness for C1 at the concrete range `192.168.0.0 .. 192.168.0.255`
(spec scenario 1), discharging the parse, family, and order hypotheses. -/
theorem c1_range_decomposer_witness :
    ipRangeToCidrs "192.168.0.0" "192.168.0.255" =
      .ok ((summarizeLoop 32 3232235775 3232235520).map (renderNet 4)) := by
  have h := c1_range_decomposer "192.168.0.0" "192.168.0.255"
    (IPAddr.v4 3232235520) (IPAddr.v4 3232235775) rfl rfl rfl (by decide)
  exact h.1

/-! ## Claim C4 -/

/-- C4 counterexample: both `"1.2.3.4"` and `"::"` parse as IP
addresses, but of inconsistent families; the claim says this fails with
an `InvalidRange` condition (a `ValueError`), yet `ip_range_to_cidrs`
raises a `TypeError` (from `summarize_address_range`'s version check),
which is not a `ValueError`. -/
theorem c4_counterexample :
    ipRangeToCidrs "1.2.3.4" "::" = .error (.typeError "not of the same version") := by
  rfl

/-- C4 (amended): `ip_range_to_cidrs` fails with a `ValueError` exactly
when either input string does not parse as an IP address, or both parse
to the same family with `first > last` numerically; when both parse but
the families differ, it instead fails with a `TypeError`. -/
theorem c4_invalid_range (firstIp lastIp : String) :
    ((∃ m, ipRangeToCidrs firstIp lastIp = .error (.valueError m)) ↔
      (pyIpAddress (pyStrip firstIp) = none ∨ pyIpAddress (pyStrip lastIp) = none ∨
        (∃ a b, pyIpAddress (pyStrip firstIp) = some a ∧
          pyIpAddress (pyStrip lastIp) = some b ∧
          a.version = b.version ∧ b.intVal < a.intVal))) ∧
    (∀ a b, pyIpAddress (pyStrip firstIp) = some a →
      pyIpAddress (pyStrip lastIp) = some b → a.version ≠ b.version →
      ipRangeToCidrs firstIp lastIp = .error (.typeError "not of the same version")) := by
  cases hA : pyIpAddress (pyStrip firstIp) with
  | none =>
    have he : ipRangeToCidrs firstIp lastIp =
        .error (.valueError "does not appear to be an IPv4 or IPv6 address") := by
      unfold ipRangeToCidrs
      rw [hA]
    constructor
    · rw [he]
      constructor
      · intro _
        exact Or.inl rfl
      · intro _
        exact ⟨_, rfl⟩
    · intro a b ha _ _
      cases ha
  | some a0 =>
    cases hB : pyIpAddress (pyStrip lastIp) with
    | none =>
      have he : ipRangeToCidrs firstIp lastIp =
          .error (.valueError "does not appear to be an IPv4 or IPv6 address") := by
        unfold ipRangeToCidrs
        rw [hA, hB]
      constructor
      · rw [he]
        constructor
        · intro _
          exact Or.inr (Or.inl rfl)
        · intro _
          exact ⟨_, rfl⟩
      · intro a b _ hb _
        cases hb
    | some b0 =>
      have he : ipRangeToCidrs firstIp lastIp = summarizeAddressRange a0 b0 := by
        unfold ipRangeToCidrs
        rw [hA, hB]
      by_cases hv : a0.version = b0.version
      · by_cases hba : b0.intVal < a0.intVal
        · have he2 : ipRangeToCidrs firstIp lastIp =
              .error (.valueError "last IP address must be greater than first") := by
            rw [he]
            unfold summarizeAddressRange
            rw [if_neg (by simp [hv]), if_pos hba]
          constructor
          · rw [he2]
            constructor
            · intro _
              exact Or.inr (Or.inr ⟨a0, b0, rfl, rfl, hv, hba⟩)
            · intro _
              exact ⟨_, rfl⟩
          · intro a b ha hb hne
            injection ha with ha
            injection hb with hb
            subst ha
            subst hb
            exact absurd hv hne
        · have he2 : ipRangeToCidrs firstIp lastIp =
              .ok ((summarizeLoop a0.width b0.intVal a0.intVal).map (renderNet a0.version)) := by
            rw [he]
            unfold summarizeAddressRange
            rw [if_neg (by simp [hv]), if_neg hba]
          constructor
          · rw [he2]
            constructor
            · rintro ⟨m, hm⟩
              cases hm
            · rintro (hc | hc | ⟨a, b, ha, hb, _, hlt⟩)
              · cases hc
              · cases hc
              · injection ha with ha
                injection hb with hb
                subst ha
                subst hb
                exact absurd hlt hba
          · intro a b ha hb hne
            injection ha with ha
            injection hb with hb
            subst ha
            subst hb
            exact absurd hv hne
      · have he2 : ipRangeToCidrs firstIp lastIp =
            .error (.typeError "not of the same version") := by
          rw [he]
          unfold summarizeAddressRange
          rw [if_pos hv]
        constructor
        · rw [he2]
          constructor
          · rintro ⟨m, hm⟩
            injection hm with hm
            cases hm
          · rintro (hc | hc | ⟨a, b, ha, hb, hveq, _⟩)
            · cases hc
            · cases hc
            · injection ha with ha
              injection hb with hb
              subst ha
              subst hb
              exact absurd hveq hv
        · intro a b ha hb _
          exact he2

/-- Witness for C4 at concrete inputs: an unparsable first address
yields a `ValueError`, discharging the amended theorem's hypotheses via
its backward direction. -/
theorem c4_invalid_range_witness :
    ∃ m, ipRangeToCidrs "999.1.2.3" "1.2.3.4" = .error (.valueError m) := by
  exact (c4_invalid_range "999.1.2.3" "1.2.3.4").1.mpr (Or.inl (by rfl))

/-! ## Claims C2, C5, C3: the Row Classifier -/

theorem extractAllocation_ip (cols : List String) (dt : DataType)
    (h : dt = DataType.ipv4 ∨ dt = DataType.ipv6) :
    extractAllocation cols dt = rowClassifierSpecIp cols := by
  have hasn : ¬(dt = DataType.asn ∧ 6 < cols.length ∧ cols.getD 6 "" = "Allocated") := by
    rintro ⟨h1, -, -⟩
    rcases h with h | h <;> subst h <;> cases h1
  by_cases hlen : 8 < cols.length
  · by_cases hst : pyStrip (cols.getD 8 "") = "Allocated" ∨ pyStrip (cols.getD 8 "") = "Assigned"
    · simp only [extractAllocation, rowClassifierSpecIp, if_neg hasn,
        if_pos (And.intro h hlen), if_neg (show ¬ cols.length < 9 by omega),
        if_neg (show ¬(pyStrip (cols.getD 8 "") ≠ "Allocated" ∧
          pyStrip (cols.getD 8 "") ≠ "Assigned") by tauto),
        if_neg (not_not_intro hst)]
    · simp only [extractAllocation, rowClassifierSpecIp, if_neg hasn,
        if_pos (And.intro h hlen), if_neg (show ¬ cols.length < 9 by omega),
        if_pos (show pyStrip (cols.getD 8 "") ≠ "Allocated" ∧
          pyStrip (cols.getD 8 "") ≠ "Assigned" by tauto),
        if_pos hst]
  · have hc2 : ¬((dt = DataType.ipv4 ∨ dt = DataType.ipv6) ∧ 8 < cols.length) :=
      fun hc => hlen hc.2
    simp only [extractAllocation, rowClassifierSpecIp, if_neg hasn, if_neg hc2,
      if_pos (show cols.length < 9 by omega)]

/-- C2 counterexample: a 9-column IPv4 row with status `"Allocated"`,
first-address column `"1.2.3.4"` and prefix column `" /24"` (carrying
leading whitespace).  The code strips both columns and returns
`"1.2.3.4/24"`, which is not the verbatim concatenation
`"1.2.3.4" ++ " /24"` the claim prescribes. -/
theorem c2_counterexample :
    extractAllocation ["Zone", "IR", "p", "1.2.3.4", "9.9.9.9", " /24", "n", "d", "Allocated"]
        DataType.ipv4 = .ok (some ["1.2.3.4/24"]) ∧
    "1.2.3.4/24" ≠
      ["Zone", "IR", "p", "1.2.3.4", "9.9.9.9", " /24", "n", "d", "Allocated"].getD 3 "" ++
        ["Zone", "IR", "p", "1.2.3.4", "9.9.9.9", " /24", "n", "d", "Allocated"].getD 5 "" := by
  exact ⟨rfl, by decide⟩

/-- C2 (amended): for IPv4/IPv6 the Row Classifier behaves exactly as the
spec's Row Classifier contract with one correction: the status column is
stripped (as claimed), and additionally the first-address and prefix
columns are stripped of surrounding whitespace before the
case-insensitive `"Aggreg"` comparison and before the concatenation, so
the literal allocation is `strip(first) ++ strip(prefix)` rather than a
verbatim concatenation; fewer than 9 columns still yields no allocation,
and the Aggreg branch still returns the Range Decomposer's output on the
(stripped) first/last address columns. -/
theorem c2_row_classifier (cols : List String) :
    extractAllocation cols DataType.ipv4 = rowClassifierSpecIp cols ∧
    extractAllocation cols DataType.ipv6 = rowClassifierSpecIp cols :=
  ⟨extractAllocation_ip cols _ (Or.inl rfl), extractAllocation_ip cols _ (Or.inr rfl)⟩

/-- C5: for resource type ASN, `_extract_allocation` returns the
single-element list containing column index 3 exactly when there are at
least 7 columns and column index 6 equals `"Allocated"`; in every other
case it returns no allocation, and that is not an error. -/
theorem c5_asn_classifier (cols : List String) :
    extractAllocation cols DataType.asn =
      .ok (if 6 < cols.length ∧ cols.getD 6 "" = "Allocated" then
        some [cols.getD 3 ""] else none) := by
  by_cases h : 6 < cols.length ∧ cols.getD 6 "" = "Allocated"
  · simp only [extractAllocation]
    rw [if_pos (show True ∧ 6 < cols.length ∧ cols.getD 6 "" = "Allocated" from
      ⟨trivial, h⟩), if_pos h]
  · simp only [extractAllocation]
    rw [if_neg (show ¬(True ∧ 6 < cols.length ∧ cols.getD 6 "" = "Allocated") by tauto),
      if_neg (show ¬((DataType.asn = DataType.ipv4 ∨ DataType.asn = DataType.ipv6) ∧
        8 < cols.length) by rintro ⟨hc | hc, -⟩ <;> cases hc),
      if_neg h]

/-- C3 counterexample: an Aggreg row whose first/last address columns
parse as addresses of inconsistent families (`"1.2.3.4"` and `"::"`).
The claim says the classifier logs a warning and returns no allocation,
never raising; but `ip_range_to_cidrs` raises `TypeError` here, which
the classifier's `except ValueError` does not catch, so the exception
escapes the classifier boundary instead of yielding no allocation. -/
theorem c3_counterexample :
    extractAllocation ["", "", "", "1.2.3.4", "::", "Aggreg", "", "", "Allocated"]
      DataType.ipv4 = .error (.typeError "not of the same version") := by
  rfl

/-- C3 (amended): for an IPv4/IPv6 Aggreg row whose range makes
`ip_range_to_cidrs` raise `ValueError` (an unparsable address, or a
same-family inverted range), the classifier returns no allocation for
that row without raising, and the Document Parser still retains the
row's Row Record (appending it to the row list while contributing no
allocation).  Ranges whose two addresses parse with inconsistent
families are the exception: they raise a `TypeError` past the
classifier boundary. -/
theorem c3_invalid_range_row (cols : List String) (dt : DataType) (m : String)
    (hdt : dt = DataType.ipv4 ∨ dt = DataType.ipv6)
    (hlen : 8 < cols.length)
    (hst : pyStrip (cols.getD 8 "") = "Allocated" ∨ pyStrip (cols.getD 8 "") = "Assigned")
    (hag : pyLower (pyStrip (cols.getD 5 "")) = "aggreg")
    (herr : ipRangeToCidrs (pyStrip (cols.getD 3 "")) (pyStrip (cols.getD 4 "")) =
      .error (.valueError m)) :
    extractAllocation cols dt = .ok none ∧
    (∀ (headers : List String) (rawRow : List String) (rest : List (List String))
        (drs : List RowRecord) (allocs : List String),
      rawRow.map pyStrip = cols → cols ≠ [] →
      processRows headers dt rest = .ok (drs, allocs) →
      processRows headers dt (rawRow :: rest) =
        .ok (mkRowRecord headers cols :: drs, allocs)) := by
  have h1 : extractAllocation cols dt = rowClassifierSpecIp cols :=
    extractAllocation_ip cols dt hdt
  have h2 : rowClassifierSpecIp cols = .ok none := by
    unfold rowClassifierSpecIp
    rw [if_neg (show ¬ cols.length < 9 by omega), if_neg (not_not_intro hst),
      if_pos hag, herr]
  have hok : extractAllocation cols dt = .ok none := h1.trans h2
  refine ⟨hok, ?_⟩
  intro headers rawRow rest drs allocs hmap hne hrest
  simp only [processRows, hmap]
  rw [if_neg (show ¬ cols.isEmpty = true by simp [hne]), hok, hrest]

/-- Witness for C3 at a concrete row: an Aggreg row with unparsable
first address `"999.1.2.3"` yields no allocation without raising, and
processing a table body consisting of that one row keeps its Row
Record while contributing no allocation. -/
theorem c3_invalid_range_row_witness :
    extractAllocation ["", "", "", "999.1.2.3", "1.2.3.4", "Aggreg", "", "", "Allocated"]
      DataType.ipv4 = .ok none ∧
    processRows ["Num", "Zone"] DataType.ipv4
        [["", "", "", "999.1.2.3", "1.2.3.4", "Aggreg", "", "", "Allocated"]] =
      .ok ([mkRowRecord ["Num", "Zone"]
        ["", "", "", "999.1.2.3", "1.2.3.4", "Aggreg", "", "", "Allocated"]], []) := by
  have h := c3_invalid_range_row
    ["", "", "", "999.1.2.3", "1.2.3.4", "Aggreg", "", "", "Allocated"]
    DataType.ipv4 "does not appear to be an IPv4 or IPv6 address"
    (Or.inl rfl) (by decide) (Or.inl rfl) rfl rfl
  exact ⟨h.1, h.2 ["Num", "Zone"]
    ["", "", "", "999.1.2.3", "1.2.3.4", "Aggreg", "", "", "Allocated"]
    [] [] [] rfl (by decide) rfl⟩

/-! ## Claims C6 and C7: the Fetcher boundary -/

/-- C6: `DataFetcher.fetch` always returns a `FetchResult` and never
raises past its boundary (the model's total return type): a
transport/timeout/non-2xx failure yields a result with a descriptive
`"Request error: ..."` message and no Row Records; a successful
transport where the parser finds no table yields the error
`"No data table found for <RESOURCETYPE> in <country>"`; and any other
unexpected failure — whether raised by the transport or escaping the
parser — yields a generic `"Unexpected error: ..."` message rather than
propagating. -/
theorem c6_fetch_total (country : String) (dt : DataType) (t : TransportOutcome) :
    (∀ m, t = .requestErr m →
      fetchModel country dt t =
        { countryCode := country, dataType := dt,
          error := some ("Request error: " ++ m) }) ∧
    (∀ m, t = .otherExc m →
      fetchModel country dt t =
        { countryCode := country, dataType := dt,
          error := some ("Unexpected error: " ++ m) }) ∧
    (∀ doc, t = .success doc → parseResponse doc dt = .ok none →
      fetchModel country dt t =
        { countryCode := country, dataType := dt,
          error := some ("No data table found for " ++ pyUpper (dtName dt) ++
            " in " ++ country) }) ∧
    (∀ doc e, t = .success doc → parseResponse doc dt = .error e →
      fetchModel country dt t =
        { countryCode := country, dataType := dt,
          error := some ("Unexpected error: " ++ pyErrMsg e) }) ∧
    (∀ doc drs allocs, t = .success doc → parseResponse doc dt = .ok (some (drs, allocs)) →
      fetchModel country dt t =
        { countryCode := country, dataType := dt, dataRows := some drs,
          allocations := some allocs, error := none }) := by
  refine ⟨?_, ?_, ?_, ?_, ?_⟩
  · intro m hm
    subst hm
    rfl
  · intro m hm
    subst hm
    rfl
  · intro doc hm hp
    subst hm
    simp only [fetchModel, hp]
  · intro doc e hm hp
    subst hm
    simp only [fetchModel, hp]
  · intro doc drs allocs hm hp
    subst hm
    simp only [fetchModel, hp]

/-- Witness for C6: a concrete timed-out transport, a concrete body with
no matching table, and a concrete body whose Aggreg row raises a
`TypeError` out of the parser, each yielding the claimed result shape. -/
theorem c6_fetch_total_witness :
    fetchModel "IR" DataType.asn (.requestErr "timeout") =
      { countryCode := "IR", dataType := DataType.asn,
        error := some ("Request error: " ++ "timeout") } ∧
    fetchModel "IR" DataType.asn (.success []) =
      { countryCode := "IR", dataType := DataType.asn,
        error := some ("No data table found for " ++ pyUpper (dtName DataType.asn) ++
          " in " ++ "IR") } ∧
    fetchModel "IR" DataType.ipv4 (.success
        [⟨"delegs ipv4 ripencc", [],
          [[], [], ["", "", "", "1.2.3.4", "::", "Aggreg", "", "", "Allocated"]]⟩]) =
      { countryCode := "IR", dataType := DataType.ipv4,
        error := some ("Unexpected error: " ++
          pyErrMsg (.typeError "not of the same version")) } := by
  refine ⟨?_, ?_, ?_⟩
  · exact (c6_fetch_total "IR" DataType.asn _).1 "timeout" rfl
  · exact (c6_fetch_total "IR" DataType.asn _).2.2.1 [] rfl rfl
  · exact (c6_fetch_total "IR" DataType.ipv4 _).2.2.2.1 _
      (.typeError "not of the same version") rfl rfl

/-- C7: every `FetchResult` produced by `DataFetcher.fetch` satisfies
exactly one of the two shapes (Row Records present and error absent) or
(Row Records absent and error present), and `is_success` holds exactly
in the first shape. -/
theorem c7_fetch_result_invariant (country : String) (dt : DataType) (t : TransportOutcome) :
    Xor' ((fetchModel country dt t).dataRows.isSome = true ∧
        (fetchModel country dt t).error = none)
      ((fetchModel country dt t).dataRows = none ∧
        (fetchModel country dt t).error.isSome = true) ∧
    ((fetchModel country dt t).isSuccess = true ↔
      ((fetchModel country dt t).dataRows.isSome = true ∧
        (fetchModel country dt t).error = none)) := by
  cases t with
  | requestErr m => simp [fetchModel, FetchResult.isSuccess, Xor']
  | otherExc m => simp [fetchModel, FetchResult.isSuccess, Xor']
  | success doc =>
    cases hp : parseResponse doc dt with
    | error e => simp [fetchModel, hp, FetchResult.isSuccess, Xor']
    | ok r =>
      cases r with
      | none => simp [fetchModel, hp, FetchResult.isSuccess, Xor']
      | some pr =>
        cases pr with
        | mk drs allocs => simp [fetchModel, hp, FetchResult.isSuccess, Xor']

/-! ## Claims C9, C10, C8: statistics and exit status -/

theorem foldl_stats_inv (events : List (Bool × String)) :
    ∀ st : ScraperStats, st.totalRequests = st.successfulRequests + st.failedRequests →
      (events.foldl statsStep st).totalRequests =
        (events.foldl statsStep st).successfulRequests +
          (events.foldl statsStep st).failedRequests := by
  induction events with
  | nil =>
    intro st h
    exact h
  | cons e t IH =>
    intro st h
    simp only [List.foldl_cons]
    apply IH
    cases hb : e.1 <;> simp [statsStep, hb, recordSuccess, recordFailure] <;> omega

theorem foldl_stats_countries (events : List (Bool × String)) :
    ∀ st : ScraperStats,
      (events.foldl statsStep st).countriesProcessed =
        st.countriesProcessed ∪ (events.map Prod.snd).toFinset := by
  induction events with
  | nil =>
    intro st
    simp
  | cons e t IH =>
    intro st
    simp only [List.foldl_cons, List.map_cons, List.toFinset_cons]
    rw [IH]
    have hc : (statsStep st e).countriesProcessed = insert e.2 st.countriesProcessed := by
      cases hb : e.1 <;> simp [statsStep, hb, recordSuccess, recordFailure]
    rw [hc]
    ext x
    simp only [Finset.mem_union, Finset.mem_insert]
    tauto

theorem foldl_stats_failed (events : List (Bool × String)) :
    ∀ st : ScraperStats,
      (events.foldl statsStep st).failedRequests =
        st.failedRequests + (events.filter (fun e => !e.1)).length := by
  induction events with
  | nil =>
    intro st
    simp
  | cons e t IH =>
    intro st
    simp only [List.foldl_cons]
    rw [IH]
    cases hb : e.1 <;>
      (simp [statsStep, hb, recordSuccess, recordFailure, List.filter_cons]; try omega)

/-- C9: after any sequence of `record_success`/`record_failure` calls
starting from the initial state, `total_requests` equals
`successful_requests + failed_requests`, and `countries_processed` is
exactly the set of distinct country codes passed, each counted once;
in particular one success for "IR" and one failure for "US" end with
totals 2/1/1. -/
theorem c9_stats_invariant (events : List (Bool × String)) :
    (applyEvents events).totalRequests =
      (applyEvents events).successfulRequests + (applyEvents events).failedRequests ∧
    (applyEvents events).countriesProcessed = (events.map Prod.snd).toFinset ∧
    ((applyEvents [(true, "IR"), (false, "US")]).totalRequests = 2 ∧
      (applyEvents [(true, "IR"), (false, "US")]).successfulRequests = 1 ∧
      (applyEvents [(true, "IR"), (false, "US")]).failedRequests = 1) := by
  refine ⟨foldl_stats_inv events initStats rfl, ?_, rfl, rfl, rfl⟩
  rw [applyEvents, foldl_stats_countries]
  simp [initStats]

/-- C10: the `success_rate` property never fails: a zero `total_requests`
is guarded and returns 0, and otherwise the result is
`successful_requests / total_requests * 100` (Python's float arithmetic
modelled exactly over the rationals). -/
theorem c10_success_rate (st : ScraperStats) :
    pySuccessRate st = .ok (if st.totalRequests = 0 then 0
      else ((st.successfulRequests : Rat) / (st.totalRequests : Rat)) * 100) := by
  by_cases h : st.totalRequests = 0
  · simp [pySuccessRate, h]
  · simp [pySuccessRate, pyDiv, h]

theorem statsOfRun_failed_eq_zero_iff (rs : List FetchResult) :
    (statsOfRun rs).failedRequests = 0 ↔ ∀ r ∈ rs, r.isSuccess = true := by
  unfold statsOfRun applyEvents
  rw [foldl_stats_failed]
  constructor
  · intro h r hr
    by_contra hns
    have hmem : (r.isSuccess, r.countryCode) ∈
        rs.map (fun r => (r.isSuccess, r.countryCode)) :=
      List.mem_map_of_mem _ hr
    have hmem2 : (r.isSuccess, r.countryCode) ∈
        (rs.map (fun r => (r.isSuccess, r.countryCode))).filter (fun e => !e.1) := by
      rw [List.mem_filter]
      refine ⟨hmem, ?_⟩
      cases hs : r.isSuccess
      · rfl
      · exact absurd hs hns
    have hne := List.ne_nil_of_mem hmem2
    have hpos := List.length_pos.mpr hne
    simp only [initStats] at h
    omega
  · intro hall
    have hnil : (rs.map (fun r => (r.isSuccess, r.countryCode))).filter
        (fun e => !e.1) = [] := by
      rw [List.filter_eq_nil_iff]
      intro a ha
      obtain ⟨r, hr, rfl⟩ := List.mem_map.mp ha
      simp [hall r hr]
    rw [hnil]
    rfl

/-- C8: the exit status is zero exactly when every submitted unit of
work succeeded (`failed_requests = 0`, equivalently every completed
result is a success); country-code validation failure returns the
ordinary failure status 1 before any fetching; and a user interrupt
returns the distinct non-zero status 130 ≠ 1. -/
theorem c8_exit_status (countries : List String) (run : RunOutcome) :
    (∀ e, validateCountryCodes countries = .error e → mainModel countries run = 1) ∧
    (∀ v rs, validateCountryCodes countries = .ok v → run = .completed rs →
      (mainModel countries run = 0 ↔ ∀ r ∈ rs, r.isSuccess = true)) ∧
    (∀ v, validateCountryCodes countries = .ok v → run = .interrupted →
      mainModel countries run = 130) ∧
    ((130 : Int) ≠ 1 ∧ (130 : Int) ≠ 0 ∧ (1 : Int) ≠ 0) := by
  refine ⟨?_, ?_, ?_, by norm_num⟩
  · intro e he
    simp [mainModel, he]
  · intro v rs hv hrun
    subst hrun
    simp only [mainModel, hv]
    by_cases hz : (statsOfRun rs).failedRequests = 0
    · simp only [if_pos hz]
      constructor
      · intro _
        exact (statsOfRun_failed_eq_zero_iff rs).mp hz
      · intro _
        trivial
    · simp only [if_neg hz]
      constructor
      · intro h
        exact absurd h (by norm_num)
      · intro hall
        exact absurd ((statsOfRun_failed_eq_zero_iff rs).mpr hall) hz
  · intro v hv hrun
    subst hrun
    simp [mainModel, hv]

/-- Witness for C8: a validated run whose single unit succeeded exits 0;
an invalid country code exits 1; an interrupt of a validated run exits
130. -/
theorem c8_exit_status_witness :
    mainModel ["ir"] (RunOutcome.completed
      [{ countryCode := "IR", dataType := DataType.asn, dataRows := some [],
         allocations := some [], error := none }]) = 0 ∧
    mainModel ["X1"] RunOutcome.interrupted = 1 ∧
    mainModel ["ir"] RunOutcome.interrupted = 130 := by
  refine ⟨?_, ?_, ?_⟩
  · exact ((c8_exit_status ["ir"] _).2.1 ["IR"] _ rfl rfl).mpr (by decide)
  · exact (c8_exit_status ["X1"] _).1 "Invalid country code: X1" rfl
  · exact (c8_exit_status ["ir"] _).2.2.1 ["IR"] rfl rfl

end AsnByCountry
